import Mathlib

/-!
Shallow embedding of the Sub0Pub core (src/include/sub0pub/sub0pub.hpp):
the type-indexed broker, the buffer directory (`BufferRegister`), the binary
frame writer (`BinaryWriter`), and the resumable stream reader (`BinaryReader`)
instantiated at the `DefaultSerialisation` protocol (4-byte "SUB0" magic
acting as the wire Prefix, 8-byte little-endian header, 1-byte `\n` delimiter
acting as the wire Postfix).  Bytes are modelled as `Nat`, machine `uint32`
values as `Nat` with explicit bounds where they matter.  Side effects
(completion callbacks, assertion / framing-error reports) are modelled as
event lists threaded through the state.
-/

namespace Sub0

/-- Wire-level type header (`DefaultSerialisation::Header`):
`typeId : uint32`, `dataBytes : uint32`.  The source orders headers by
`typeId` only (`operator<`) while equality compares both fields
(`operator==`). -/
structure Header where
  typeId : Nat
  dataBytes : Nat
deriving DecidableEq

/-- Landing-buffer descriptor (`sub0::Buffer`).  `present` models
`buffer != nullptr`; `publisher` models the `IPublish*` completion handle
(`none` = null). -/
structure Buffer where
  present : Bool
  bufferSize : Nat
  paddingSize : Nat
  publisher : Option Nat
deriving DecidableEq

/-- The `{ nullptr, 0U, 0U, nullptr }` descriptor `BufferRegister::find`
returns on a miss. -/
def Buffer.null : Buffer := ⟨false, 0, 0, none⟩

/-- `BufferRegister::set(header, buffer)`: `std::lower_bound` over the sorted
registry with comparator `lhs.first < rhs` (typeId order); if the entry at
the insertion point compares equal (`operator==`, both fields) its descriptor
is overwritten, otherwise the new pair is inserted at that point.  On a
registry kept partitioned by the typeId order, `lower_bound` returns the
first entry whose typeId is not below `h`, i.e. the `takeWhile`/`dropWhile`
split point.  The capacity assertion (64 entries) is carried as a hypothesis
in the theorems. -/
def set (reg : List (Header × Buffer)) (h : Header) (b : Buffer) :
    List (Header × Buffer) :=
  match reg.dropWhile (fun e => decide (e.1.typeId < h.typeId)) with
  | [] => reg.takeWhile (fun e => decide (e.1.typeId < h.typeId)) ++ [(h, b)]
  | e :: tl =>
      if e.1 = h then
        reg.takeWhile (fun e => decide (e.1.typeId < h.typeId)) ++ (e.1, b) :: tl
      else
        reg.takeWhile (fun e => decide (e.1.typeId < h.typeId)) ++ (h, b) :: e :: tl

/-- `BufferRegister::find(header)`: `std::lower_bound` by typeId, then an
`operator==` check on both fields; returns the null descriptor on a miss. -/
def find (reg : List (Header × Buffer)) (h : Header) : Buffer :=
  match reg.dropWhile (fun e => decide (e.1.typeId < h.typeId)) with
  | [] => Buffer.null
  | e :: _ => if e.1 = h then e.2 else Buffer.null

/-- A sequence of `set` calls starting from the empty registry
(registration happens once at process start). -/
def seqSet (calls : List (Header × Buffer)) : List (Header × Buffer) :=
  calls.foldl (fun reg c => set reg c.1 c.2) []

/-! ### Broker -/

/-- `Broker<Data>::publish(data)`: visit the subscription table in order;
for each subscriber evaluate `filter(data)` and, when it accepts, invoke
`receive(data)`.  Subscribers are modelled by identity (`Nat`); the result
is the ordered trace of `receive` calls. -/
def publish {D : Type} (subs : List Nat) (filt : Nat → D → Bool) (v : D) :
    List Nat :=
  match subs with
  | [] => []
  | s :: rest => if filt s v then s :: publish rest filt v else publish rest filt v

/-- The `Broker` subscriber constructor appends to the table:
`subscriptions[subscriptionCount++] = subscriber` (capacity assertion
aside). -/
def subscribeB (subs : List Nat) (s : Nat) : List Nat := subs ++ [s]

/-- Table obtained by registering `ids` in order on a fresh broker. -/
def regAll (ids : List Nat) : List Nat := ids.foldl subscribeB []

/-- `Broker<Data>::unsubscribe(subscriber)`: `std::remove` keeps the
non-matching entries in order; the assertion
`assert(std::distance(iPend, iEnd) == 1)` demands exactly one removed entry
and is modelled as the error outcome (the assert halts before the count is
decremented). -/
def unsubscribe (subs : List Nat) (s : Nat) : Except String (List Nat) :=
  let kept := subs.filter (fun x => !decide (x = s))
  if subs.length - kept.length = 1 then Except.ok kept
  else Except.error "unsubscribe expected exactly one matching entry"

/-! ### Binary writer -/

/-- Little-endian byte image of a `uint32` value (host is little-endian per
the spec's wire-format section). -/
def le32 (x : Nat) : List Nat :=
  [x % 256, x / 256 % 256, x / 65536 % 256, x / 16777216 % 256]

/-- Byte image of the default-constructed `Prefix` struct:
`FourCC<'S','U','B','0'>` in memory order. -/
def magicBytes : List Nat := [83, 85, 66, 48]

/-- The `Postfix` delimiter byte `'\n'`. -/
def delimByte : Nat := 10

/-- Output-stream collaborator (`utility::OStream`): `write` returns how many
bytes were actually accepted.  Modelled as a byte sink with a remaining
acceptance budget; a transport accepts `min budget n` bytes per request. -/
structure OutS where
  sink : List Nat
  budget : Nat
deriving DecidableEq

/-- One `stream.write(buffer, count)` call of the transport model. -/
def osWrite (s : OutS) (bytes : List Nat) : Nat × OutS :=
  let k := min s.budget bytes.length
  (k, ⟨s.sink ++ bytes.take k, s.budget - k⟩)

/-- `utility::write`: a single value write succeeds iff the stream accepted
exactly `sizeof(value)` bytes. -/
def uwrite (s : OutS) (bytes : List Nat) : Bool × OutS :=
  let r := osWrite s bytes
  (r.1 = bytes.length, r.2)

/-- `BinaryWriter::write(stream, data)`: short-circuit conjunction of the
four component writes — default `Prefix_t`, `Header_t(data)` (the payload
byte count is `sizeof(Data)`), the raw payload bytes, default `Postfix_t`. -/
def writeFrame (s : OutS) (tid : Nat) (payload : List Nat) : Bool × OutS :=
  let r1 := uwrite s magicBytes
  if !r1.1 then (false, r1.2) else
  let r2 := uwrite r1.2 (le32 tid ++ le32 payload.length)
  if !r2.1 then (false, r2.2) else
  let r3 := uwrite r2.2 payload
  if !r3.1 then (false, r3.2) else
  uwrite r3.2 [delimByte]

/-- Sequential short-circuit composition of component writes — the shape of
`BinaryWriter::write`'s `&&` chain, factored over the list of component byte
images (used to relate `writeFrame` to the flattened frame bytes). -/
def writeComps : OutS → List (List Nat) → Bool × OutS
  | s, [] => (true, s)
  | s, c :: cs =>
      let r := uwrite s c
      if r.1 then writeComps r.2 cs else (false, r.2)

/-! ### Binary reader state machine

`BinaryReader<Prefix, Header, Postfix>` at the `DefaultSerialisation`
protocol.  `Phase.magic` is the source's `State::Prefix` (the 4-byte "SUB0"
marker), `Phase.delim` is `State::Postfix` (the 1-byte `'\n'` delimiter);
both renamed here for Lean-lexical reasons only. -/

inductive Phase where
  | magic
  | header
  | payload
  | delim
  | syncLost
deriving DecidableEq

/-- Reported error events: the `throw`/`assert` messages of
`checkStatusOfState` (header mismatch, delimiter mismatch, other sync loss),
the null-data-buffer report of `stateComplete`, the "some logic is wrong"
report, and the null-publisher assertion inside `nextState`. -/
inductive ErrK where
  | hdrMismatch
  | delimMismatch
  | syncOther
  | nullData
  | logicWrong
  | pubNull
deriving DecidableEq

/-- `BinaryReader` state: buffer directory, current state enum, the live
`currentBuffer_` descriptor (`curPresent` = pointer non-null, `curSize` /
`curPad` = remaining byte counts, `curAcc` = bytes landed so far in the
current buffer), the decoded `header_` scratch, and instrumentation: the
payload bytes of the frame in flight, the trace of completion callbacks
(`publisher id`, landed payload bytes), reported errors, and a count of
transitions into the `Header` state. -/
structure Reader where
  reg : List (Header × Buffer)
  st : Phase
  curPresent : Bool
  curSize : Nat
  curPad : Nat
  curPub : Option Nat
  curAcc : List Nat
  hdr : Header
  payloadScratch : List Nat
  pubs : List (Nat × List Nat)
  errs : List ErrK
  hdrArr : Nat
deriving DecidableEq

/-- `BinaryReader::BinaryReader()`: default state `Prefix`, empty
`currentBuffer_` (`{}` — null pointer, zero sizes). -/
def freshReader (reg : List (Header × Buffer)) : Reader :=
  ⟨reg, Phase.magic, false, 0, 0, none, [], ⟨0, 0⟩, [], [], [], 0⟩

/-- Little-endian decode of 4 bytes (the in-memory image of a `uint32`). -/
def decode4 (l : List Nat) : Nat :=
  match l with
  | [a, b, c, d] => a + 256 * b + 65536 * c + 16777216 * d
  | _ => 0

/-- Reinterpret the 8 bytes landed in `header_` as the two `uint32` fields. -/
def decodeHdr (l : List Nat) : Header :=
  ⟨decode4 (l.take 4), decode4 ((l.drop 4).take 4)⟩

/-- `BinaryReader::findStateBuffer(state)`: Prefix → 4-byte `prefix_`
scratch, Header → 8-byte `header_` scratch, Data → directory lookup on the
decoded header, Postfix → 1-byte `postfix_` scratch carrying forward the
data buffer's publisher handle.  The `default:` label of the source `switch`
falls through into the Prefix case. -/
def findStateBuffer (r : Reader) (s : Phase) : Buffer :=
  match s with
  | Phase.header => ⟨true, 8, 0, none⟩
  | Phase.payload => find r.reg r.hdr
  | Phase.delim => ⟨true, 1, 0, r.curPub⟩
  | _ => ⟨true, 4, 0, none⟩

/-- `BinaryReader::getStateStatus(state)`: Prefix always valid (content not
checked, per the source `@todo`), Header valid via
`dataBufferRegistery_.validate` which always returns true, Data always
valid, Postfix valid iff the landed byte equals the default delimiter.
`default:` (SyncLost) falls through into the Prefix case. -/
def getStateStatus (r : Reader) (s : Phase) : Bool :=
  match s with
  | Phase.header => true
  | Phase.payload => true
  | Phase.delim => r.curAcc = [delimByte]
  | _ => true

/-- `BinaryReader::checkStatusOfState`: on an invalid state status report a
framing error (the source throws / asserts a failure message) and return
false. -/
def checkStatusOfState (r : Reader) (s : Phase) : Bool × Reader :=
  if getStateStatus r s then (true, r)
  else
    (false, { r with errs := r.errs ++ [match s with
        | Phase.header => ErrK.hdrMismatch
        | Phase.delim => ErrK.delimMismatch
        | _ => ErrK.syncOther] })

/-- `BinaryReader::nextState(currentState)`: the frame cycle.  At the Postfix
arm the completion side effect fires — `currentBuffer_.publisher->publish()`
(an assertion reports a null publisher and the call is skipped).  The
`default:` label (SyncLost) falls through into the Prefix case, and with the
non-void types of `DefaultSerialisation` the Data arm selects Postfix and
the Postfix arm selects Prefix. -/
def nextStateF (r : Reader) (s : Phase) : Phase × Reader :=
  match s with
  | Phase.header => (Phase.payload, r)
  | Phase.payload => (Phase.delim, r)
  | Phase.delim =>
      match r.curPub with
      | some p => (Phase.magic, { r with pubs := r.pubs ++ [(p, r.payloadScratch)] })
      | none => (Phase.magic, { r with errs := r.errs ++ [ErrK.pubNull] })
  | _ => (Phase.header, r)

/-- Bookkeeping at state completion: the decoded `header_` is fixed when the
Header state finishes (its raw bytes sit in the scratch), and the frame's
payload bytes are captured when the Data state finishes (they sit in the
registered landing buffer until the completion callback fires). -/
def captureScratch (r : Reader) : Reader :=
  let r2 := if r.st = Phase.header then { r with hdr := decodeHdr r.curAcc } else r
  if r2.st = Phase.payload then { r2 with payloadScratch := r2.curAcc } else r2

/-- Second half of `BinaryReader::stateComplete()`: advance to the next
state (`state_ = nextState(state_)`, firing the Postfix completion side
effect), select the new state's buffer, and report the
null-data-buffer/logic error when the buffer pointer is null (unrecognised
header).  Returns the new buffer's presence as the call's success. -/
def advance (r : Reader) : Bool × Reader :=
  let n := nextStateF r r.st
  let b := findStateBuffer n.2 n.1
  let r5 : Reader :=
    { n.2 with st := n.1,
               curPresent := b.present, curSize := b.bufferSize,
               curPad := b.paddingSize, curPub := b.publisher,
               curAcc := [],
               hdrArr := if n.1 = Phase.header then n.2.hdrArr + 1 else n.2.hdrArr }
  if b.present then (true, r5)
  else (false, { r5 with errs := r5.errs ++
          [if n.1 = Phase.payload then ErrK.nullData else ErrK.logicWrong] })

/-- `BinaryReader::stateComplete()`: validate the finished state (failure →
`SyncLost`, error reported, no advance); otherwise capture the finished
state's scratch data and advance. -/
def stateComplete (r : Reader) : Bool × Reader :=
  let c := checkStatusOfState r r.st
  if !c.1 then (false, { c.2 with st := Phase.syncLost })
  else advance (captureScratch c.2)

/-- First block of `BinaryReader::readBuffer`: when the current buffer still
needs bytes, read up to that many from the stream (the transport delivers
what it currently has) and advance the buffer cursor. -/
def readStep1 (r : Reader) (avail : List Nat) : Reader × List Nat :=
  if r.curSize > 0 then
    ({ r with curAcc := r.curAcc ++ avail.take r.curSize,
              curSize := r.curSize - (avail.take r.curSize).length },
     avail.drop r.curSize)
  else (r, avail)

/-- Second block of `BinaryReader::readBuffer`: when trailing padding
remains, `stream.ignore` up to that many bytes (discarded, not stored). -/
def readStep2 (r : Reader) (avail : List Nat) : Reader × List Nat :=
  if r.curPad > 0 then
    ({ r with curPad := r.curPad - min avail.length r.curPad },
     avail.drop r.curPad)
  else (r, avail)

/-- `BinaryReader::readBuffer(stream)`: read up to the remaining
`bufferSize` bytes of `currentBuffer_` from the stream, then discard up to
`paddingSize` bytes; return "need more data" while either is incomplete,
else complete the state.  The input stream is the byte list `avail`; the
unread leftover is returned. -/
def readBuffer (r : Reader) (avail : List Nat) : Bool × Reader × List Nat :=
  let s1 := readStep1 r avail
  if s1.1.curSize > 0 then (false, s1.1, s1.2)
  else
    let s2 := readStep2 s1.1 s1.2
    if s2.1.curPad > 0 then (false, s2.1, s2.2)
    else
      let c := stateComplete s2.1
      (c.1, c.2, s2.2)

/-- The `while (readBuffer(stream))` loop of `BinaryReader::read`, with a
fuel bound: one poll performs at most four successful state completions
before reaching the Header state (the loop's exit), so a fuel of 8 is never
exhausted. -/
def readAux : Nat → Reader → List Nat → Bool × Reader × List Nat
  | 0, r, avail => (false, r, avail)
  | Nat.succ n, r, avail =>
    match readBuffer r avail with
    | (true, r1, rest) =>
        if r1.st = Phase.header then (true, r1, rest)
        else readAux n r1 rest
    | (false, r1, rest) => (false, r1, rest)

/-- `BinaryReader::read(stream)` — the `poll` operation: loop `readBuffer`
until it needs more data, returning true as soon as the state machine lands
on `State::Header` ("a payload was completed, caller may process"). -/
def read (r : Reader) (avail : List Nat) : Bool × Reader × List Nat :=
  readAux 8 r avail

/-- Repeated polling: each call consumes from the leftover of the previous
one (unread bytes stay in the transport stream). -/
def runPolls : Nat → Reader → List Nat → Reader × List Nat
  | 0, r, avail => (r, avail)
  | Nat.succ n, r, avail =>
      let p := read r avail
      runPolls n p.2.1 p.2.2

/-! ### Concrete instances used by the closed theorems -/

/-- A 4-byte landing buffer with completion publisher 0 (as registered by a
`ForwardPublish` adapter for a 4-byte message type). -/
def bufA : Buffer := ⟨true, 4, 0, some 0⟩

/-- An 8-byte landing buffer with completion publisher 1. -/
def bufB : Buffer := ⟨true, 8, 0, some 1⟩

/-- A 4-byte landing buffer with completion publisher 2. -/
def bufC : Buffer := ⟨true, 4, 0, some 2⟩

/-- Directory with one registered type: typeId 12345 (the constant the
source's `Header(data)` constructor assigns in the default build), 4-byte
payload. -/
def regA : List (Header × Buffer) := set [] ⟨12345, 4⟩ bufA

/-- Directory with one registered type of typeId `tid`, payload size `n`,
landing buffer present with completion publisher `pid` (the registration a
`ForwardPublish` adapter performs via `setDataPublisher`). -/
def regFor (tid n pid : Nat) : List (Header × Buffer) :=
  set [] ⟨tid, n⟩ ⟨true, n, 0, some pid⟩

/-- One wire frame for typeId 12345 with payload `[1,2,3,4]` and a corrupted
delimiter byte (7 instead of `'\n'`), starting at the header — the framing
the fresh reader actually expects first. -/
def badStream : List Nat := le32 12345 ++ le32 4 ++ [1, 2, 3, 4] ++ [7]

end Sub0

namespace Sub0

/-! ### Helper lemmas (buffer directory) -/

theorem dropWhile_head_false {α : Type} (p : α → Bool) :
    ∀ (l : List α) (e : α) (tl : List α), l.dropWhile p = e :: tl → p e = false := by
  intro l
  induction l with
  | nil => intro e tl h; simp [List.dropWhile] at h
  | cons a rest ih =>
      intro e tl h
      rw [List.dropWhile_cons] at h
      by_cases hp : p a
      · rw [if_pos hp] at h; exact ih e tl h
      · rw [if_neg hp] at h
        obtain ⟨he, _⟩ := List.cons.injEq .. ▸ h
        subst he
        simpa using hp

/-- `set` preserves the directory invariant (strictly increasing typeIds and
payload sizes determined by typeId), provided the upserted header's size is
the one its typeId determines. -/
theorem set_keeps_inv (sz : Nat → Nat) (reg : List (Header × Buffer)) (h : Header)
    (b : Buffer)
    (hp : reg.Pairwise (fun a c => a.1.typeId < c.1.typeId))
    (hs : ∀ e ∈ reg, e.1.dataBytes = sz e.1.typeId)
    (hh : h.dataBytes = sz h.typeId) :
    (set reg h b).Pairwise (fun a c => a.1.typeId < c.1.typeId) ∧
    ∀ e ∈ set reg h b, e.1.dataBytes = sz e.1.typeId := by
  have hsplit := List.takeWhile_append_dropWhile
    (p := fun e => decide (e.1.typeId < h.typeId)) (l := reg)
  have hp2 : (reg.takeWhile (fun e => decide (e.1.typeId < h.typeId)) ++
      reg.dropWhile (fun e => decide (e.1.typeId < h.typeId))).Pairwise
        (fun a c => a.1.typeId < c.1.typeId) := by rw [hsplit]; exact hp
  obtain ⟨hpre, hrest, hcross⟩ := List.pairwise_append.mp hp2
  have hpreLt : ∀ a ∈ reg.takeWhile (fun e => decide (e.1.typeId < h.typeId)),
      a.1.typeId < h.typeId := by
    intro a ha
    simpa using List.mem_takeWhile_imp ha
  have hpreMem : ∀ a ∈ reg.takeWhile (fun e => decide (e.1.typeId < h.typeId)),
      a ∈ reg := by
    intro a ha
    rw [← hsplit]
    exact List.mem_append_left _ ha
  unfold set
  split
  · next heq =>
      constructor
      · refine List.pairwise_append.mpr ⟨hpre, List.pairwise_singleton .., ?_⟩
        intro a ha y hy
        rw [List.mem_singleton] at hy
        subst hy
        exact hpreLt a ha
      · intro e he
        rcases List.mem_append.mp he with hl | hr
        · exact hs e (hpreMem e hl)
        · rw [List.mem_singleton] at hr; subst hr; exact hh
  · next e tl heq =>
      have hef : ¬ e.1.typeId < h.typeId := by
        simpa using dropWhile_head_false _ reg e tl heq
      have hrest2 : (e :: tl).Pairwise (fun a c => a.1.typeId < c.1.typeId) := by
        rw [heq] at hrest; exact hrest
      obtain ⟨hetl, htl⟩ := List.pairwise_cons.mp hrest2
      have hcross2 : ∀ a ∈ reg.takeWhile (fun e => decide (e.1.typeId < h.typeId)),
          ∀ y ∈ e :: tl, a.1.typeId < y.1.typeId := by
        intro a ha y hy
        exact hcross a ha y (heq ▸ hy)
      have heMem : e ∈ reg := by
        rw [← hsplit]
        exact List.mem_append_right _ (heq ▸ List.mem_cons_self e tl)
      have htlMem : ∀ a ∈ tl, a ∈ reg := by
        intro a ha
        rw [← hsplit]
        exact List.mem_append_right _ (heq ▸ List.mem_cons_of_mem e ha)
      split
      · next hehEq =>
          constructor
          · refine List.pairwise_append.mpr ⟨hpre, ?_, ?_⟩
            · exact List.pairwise_cons.mpr ⟨fun a ha => hetl a ha, htl⟩
            · intro a ha y hy
              rcases List.mem_cons.mp hy with rfl | hy2
              · exact hcross2 a ha e (List.mem_cons_self e tl)
              · exact hcross2 a ha y (List.mem_cons_of_mem e hy2)
          · intro x hx
            rcases List.mem_append.mp hx with hl | hr
            · exact hs x (hpreMem x hl)
            · rcases List.mem_cons.mp hr with heq3 | hx2
              · rw [heq3]; exact hs e heMem
              · exact hs x (htlMem x hx2)
      · next hehNe =>
          have hlt : h.typeId < e.1.typeId := by
            rcases Nat.lt_or_ge h.typeId e.1.typeId with hlt | hge
            · exact hlt
            · exfalso
              have heqt : e.1.typeId = h.typeId := Nat.le_antisymm
                hge (Nat.le_of_not_lt hef)
              have heqd : e.1.dataBytes = h.dataBytes := by
                rw [hs e heMem, heqt, hh]
              apply hehNe
              cases he1 : e.1 with
              | mk t d =>
                  cases h with
                  | mk t2 d2 =>
                      rw [he1] at heqt heqd
                      simp at heqt heqd
                      simp [heqt, heqd]
          constructor
          · refine List.pairwise_append.mpr ⟨hpre, ?_, ?_⟩
            · refine List.pairwise_cons.mpr ⟨?_, hrest2⟩
              intro y hy
              rcases List.mem_cons.mp hy with rfl | hy2
              · exact hlt
              · exact Nat.lt_trans hlt (hetl y hy2)
            · intro a ha y hy
              rcases List.mem_cons.mp hy with rfl | hy2
              · exact hpreLt a ha
              · exact hcross2 a ha y hy2
          · intro x hx
            rcases List.mem_append.mp hx with hl | hr
            · exact hs x (hpreMem x hl)
            · rcases List.mem_cons.mp hr with heq3 | hx2
              · rw [heq3]; exact hh
              · rcases List.mem_cons.mp hx2 with heq4 | hx3
                · rw [heq4]; exact hs e heMem
                · exact hs x (htlMem x hx3)

/-- `set` grows the directory by at most one entry. -/
theorem set_length_le (reg : List (Header × Buffer)) (h : Header) (b : Buffer) :
    (set reg h b).length ≤ reg.length + 1 := by
  have hsplit := List.takeWhile_append_dropWhile
    (p := fun e => decide (e.1.typeId < h.typeId)) (l := reg)
  have hlen : (reg.takeWhile (fun e => decide (e.1.typeId < h.typeId))).length +
      (reg.dropWhile (fun e => decide (e.1.typeId < h.typeId))).length = reg.length := by
    rw [← List.length_append, hsplit]
  unfold set
  split
  · next heq => rw [heq] at hlen; simp at hlen ⊢; omega
  · next e tl heq =>
      rw [heq] at hlen
      split <;> simp at hlen ⊢ <;> omega

/-- Every directory reachable by in-capacity registrations whose payload
sizes are a function of the typeId satisfies the invariant: strictly
increasing typeIds, sizes determined by typeId, and entry count bounded by
the number of calls. -/
theorem seqSet_inv (sz : Nat → Nat) (calls : List (Header × Buffer))
    (hsz : ∀ e ∈ calls, e.1.dataBytes = sz e.1.typeId) :
    (seqSet calls).Pairwise (fun a c => a.1.typeId < c.1.typeId) ∧
    (∀ e ∈ seqSet calls, e.1.dataBytes = sz e.1.typeId) ∧
    (seqSet calls).length ≤ calls.length := by
  suffices H : ∀ reg : List (Header × Buffer),
      reg.Pairwise (fun a c => a.1.typeId < c.1.typeId) →
      (∀ e ∈ reg, e.1.dataBytes = sz e.1.typeId) →
      (∀ e ∈ calls, e.1.dataBytes = sz e.1.typeId) →
      (calls.foldl (fun reg c => set reg c.1 c.2) reg).Pairwise
        (fun a c => a.1.typeId < c.1.typeId) ∧
      (∀ e ∈ calls.foldl (fun reg c => set reg c.1 c.2) reg,
        e.1.dataBytes = sz e.1.typeId) ∧
      (calls.foldl (fun reg c => set reg c.1 c.2) reg).length ≤
        reg.length + calls.length by
    have := H [] List.Pairwise.nil (by intro e he; simp at he) hsz
    exact ⟨this.1, this.2.1, by simpa using this.2.2⟩
  clear hsz
  induction calls with
  | nil => intro reg h1 h2 _; exact ⟨h1, h2, by simp⟩
  | cons c rest ih =>
      intro reg h1 h2 h3
      have hc : c.1.dataBytes = sz c.1.typeId := h3 c (List.mem_cons_self c rest)
      have step := set_keeps_inv sz reg c.1 c.2 h1 h2 hc
      have hlen := set_length_le reg c.1 c.2
      have tail := ih (set reg c.1 c.2) step.1 step.2
        (fun e he => h3 e (List.mem_cons_of_mem c he))
      refine ⟨tail.1, tail.2.1, ?_⟩
      simp only [List.foldl_cons]
      have := tail.2.2
      simp only [List.length_cons]
      omega

/-- A strictly typeId-sorted directory holds at most one entry per Header. -/
theorem countP_header_le_one (reg : List (Header × Buffer))
    (hp : reg.Pairwise (fun a c => a.1.typeId < c.1.typeId)) (h : Header) :
    reg.countP (fun e => decide (e.1 = h)) ≤ 1 := by
  induction reg with
  | nil => simp
  | cons a rest ih =>
      obtain ⟨harel, htl⟩ := List.pairwise_cons.mp hp
      rw [List.countP_cons]
      by_cases ha : a.1 = h
      · have hrest0 : rest.countP (fun e => decide (e.1 = h)) = 0 := by
          apply List.countP_eq_zero.mpr
          intro x hx hxh
          have hxh2 : x.1 = h := by simpa using hxh
          have := harel x hx
          rw [ha, hxh2] at this
          exact absurd this (lt_irrefl _)
        simp [ha, hrest0]
      · simpa [ha] using ih htl

/-- On a strictly sorted directory, upserting an already-present Header
rewrites exactly that entry's descriptor in place. -/
theorem set_overwrite (reg : List (Header × Buffer))
    (hp : reg.Pairwise (fun a c => a.1.typeId < c.1.typeId)) (h : Header)
    (b0 b : Buffer) (hmem : (h, b0) ∈ reg) :
    set reg h b = reg.map (fun e => if e.1 = h then (h, b) else e) := by
  have hsplit := List.takeWhile_append_dropWhile
    (p := fun e => decide (e.1.typeId < h.typeId)) (l := reg)
  have hp2 : (reg.takeWhile (fun e => decide (e.1.typeId < h.typeId)) ++
      reg.dropWhile (fun e => decide (e.1.typeId < h.typeId))).Pairwise
        (fun a c => a.1.typeId < c.1.typeId) := by rw [hsplit]; exact hp
  obtain ⟨hpre, hrest, hcross⟩ := List.pairwise_append.mp hp2
  have hpreLt : ∀ a ∈ reg.takeWhile (fun e => decide (e.1.typeId < h.typeId)),
      a.1.typeId < h.typeId := by
    intro a ha
    simpa using List.mem_takeWhile_imp ha
  have hpreNe : ∀ a ∈ reg.takeWhile (fun e => decide (e.1.typeId < h.typeId)),
      ¬ a.1 = h := by
    intro a ha hah
    have := hpreLt a ha
    rw [hah] at this
    exact absurd this (lt_irrefl _)
  unfold set
  split
  · next heq =>
      exfalso
      have : (h, b0) ∈ reg.takeWhile (fun e => decide (e.1.typeId < h.typeId)) ++
          reg.dropWhile (fun e => decide (e.1.typeId < h.typeId)) := by
        rw [hsplit]; exact hmem
      rcases List.mem_append.mp this with hl | hr
      · exact hpreNe _ hl rfl
      · rw [heq] at hr; simp at hr
  · next e tl heq =>
      have hef : ¬ e.1.typeId < h.typeId := by
        simpa using dropWhile_head_false _ reg e tl heq
      have hrest2 : (e :: tl).Pairwise (fun a c => a.1.typeId < c.1.typeId) := by
        rw [heq] at hrest; exact hrest
      obtain ⟨hetl, _⟩ := List.pairwise_cons.mp hrest2
      have hmem2 : (h, b0) ∈ reg.takeWhile (fun e => decide (e.1.typeId < h.typeId)) ++
          e :: tl := by
        rw [← heq, hsplit]; exact hmem
      have heh : e = (h, b0) := by
        rcases List.mem_append.mp hmem2 with hl | hr
        · exact absurd rfl (hpreNe _ hl)
        · rcases List.mem_cons.mp hr with heq2 | hin
          · exact heq2.symm
          · exfalso
            have := hetl _ hin
            exact hef this
      have heh1 : e.1 = h := by rw [heh]
      split
      · next =>
          have hmapPre : (reg.takeWhile (fun e => decide (e.1.typeId < h.typeId))).map
              (fun e => if e.1 = h then (h, b) else e) =
              reg.takeWhile (fun e => decide (e.1.typeId < h.typeId)) := by
            rw [List.map_congr_left (g := fun a => a), List.map_id']
            intro a ha
            simp [hpreNe a ha]
          have hmapTl : tl.map (fun e => if e.1 = h then (h, b) else e) = tl := by
            rw [List.map_congr_left (g := fun a => a), List.map_id']
            intro a ha
            have hgt := hetl a ha
            rw [heh1] at hgt
            have : ¬ a.1 = h := by
              intro hah
              rw [hah] at hgt
              exact absurd hgt (lt_irrefl _)
            simp [this]
          conv_rhs => rw [← hsplit, heq]
          rw [List.map_append, hmapPre, List.map_cons, hmapTl, if_pos heh1, heh1]
      · next hne => exact absurd heh1 hne

/-- `find` on a strictly sorted directory returns the descriptor of the
matching entry. -/
theorem find_mem (reg : List (Header × Buffer))
    (hp : reg.Pairwise (fun a c => a.1.typeId < c.1.typeId)) (h : Header)
    (b : Buffer) (hmem : (h, b) ∈ reg) : find reg h = b := by
  have hsplit := List.takeWhile_append_dropWhile
    (p := fun e => decide (e.1.typeId < h.typeId)) (l := reg)
  have hp2 : (reg.takeWhile (fun e => decide (e.1.typeId < h.typeId)) ++
      reg.dropWhile (fun e => decide (e.1.typeId < h.typeId))).Pairwise
        (fun a c => a.1.typeId < c.1.typeId) := by rw [hsplit]; exact hp
  obtain ⟨hpre, hrest, hcross⟩ := List.pairwise_append.mp hp2
  have hpreNe : ∀ a ∈ reg.takeWhile (fun e => decide (e.1.typeId < h.typeId)),
      ¬ a.1 = h := by
    intro a ha hah
    have := List.mem_takeWhile_imp ha
    simp at this
    rw [hah] at this
    exact absurd this (lt_irrefl _)
  unfold find
  split
  · next heq =>
      exfalso
      have : (h, b) ∈ reg.takeWhile (fun e => decide (e.1.typeId < h.typeId)) ++
          reg.dropWhile (fun e => decide (e.1.typeId < h.typeId)) := by
        rw [hsplit]; exact hmem
      rcases List.mem_append.mp this with hl | hr
      · exact hpreNe _ hl rfl
      · rw [heq] at hr; simp at hr
  · next e tl heq =>
      have hef : ¬ e.1.typeId < h.typeId := by
        simpa using dropWhile_head_false _ reg e tl heq
      have hrest2 : (e :: tl).Pairwise (fun a c => a.1.typeId < c.1.typeId) := by
        rw [heq] at hrest; exact hrest
      obtain ⟨hetl, _⟩ := List.pairwise_cons.mp hrest2
      have hmem2 : (h, b) ∈ reg.takeWhile (fun e => decide (e.1.typeId < h.typeId)) ++
          e :: tl := by
        rw [← heq, hsplit]; exact hmem
      have heh : e = (h, b) := by
        rcases List.mem_append.mp hmem2 with hl | hr
        · exact absurd rfl (hpreNe _ hl)
        · rcases List.mem_cons.mp hr with heq2 | hin
          · exact heq2.symm
          · exact absurd (hetl _ hin) hef
      rw [heh]
      simp

/-- `find` returns the null descriptor when no entry's Header matches. -/
theorem find_not_mem (reg : List (Header × Buffer)) (h : Header)
    (hn : ∀ b : Buffer, (h, b) ∉ reg) : find reg h = Buffer.null := by
  unfold find
  split
  · rfl
  · next e tl heq =>
      by_cases he : e.1 = h
      · exfalso
        have hin : e ∈ reg := (List.dropWhile_sublist _).subset
          (heq ▸ List.mem_cons_self e tl)
        have : (h, e.2) ∈ reg := by
          have : e = (h, e.2) := by
            cases e with
            | mk f s => simp at he ⊢; exact he
          rw [← this]; exact hin
        exact hn e.2 this
      · simp [he]

/-! ### Helper lemmas (broker) -/

theorem regAll_go (ids : List Nat) (acc : List Nat) :
    ids.foldl subscribeB acc = acc ++ ids := by
  induction ids generalizing acc with
  | nil => simp
  | cons s rest ih => simp [subscribeB, ih]

/-- Registering ids in order builds the table in registration order. -/
theorem regAll_eq (ids : List Nat) : regAll ids = ids := by
  simpa using regAll_go ids []

/-- The trace of `receive` calls is the registration-order table filtered by
the accepting filters. -/
theorem publish_eq_filter {D : Type} (subs : List Nat) (filt : Nat → D → Bool)
    (v : D) : publish subs filt v = subs.filter (fun s => filt s v) := by
  induction subs with
  | nil => rfl
  | cons s rest ih =>
      by_cases h : filt s v <;> simp [publish, List.filter_cons, h, ih]

theorem length_filter_ne (subs : List Nat) (s : Nat) :
    (subs.filter (fun x => !decide (x = s))).length + subs.count s = subs.length := by
  induction subs with
  | nil => rfl
  | cons a rest ih =>
      by_cases h : a = s
      · subst h; simp [List.filter_cons, List.count_cons, ih]; omega
      · simp [List.filter_cons, h, List.count_cons, ih]; omega

end Sub0

namespace Sub0

/-- Claim C2: publishing a value `v` on a broker with subscribers registered
in order visits them in registration order; the receive trace is exactly the
registration-order list restricted to subscribers whose filter accepts `v`,
every accepting subscriber receives exactly one `receive(v)` call, and every
rejecting subscriber receives none. -/
theorem claim_C2_publish_fanout {D : Type} (ids : List Nat)
    (filt : Nat → D → Bool) (v : D) (hnd : ids.Nodup) :
    publish (regAll ids) filt v = ids.filter (fun s => filt s v) ∧
    (∀ s ∈ ids, filt s v = true → (publish (regAll ids) filt v).count s = 1) ∧
    (∀ s : Nat, filt s v = false → (publish (regAll ids) filt v).count s = 0) := by
  rw [regAll_eq, publish_eq_filter]
  refine ⟨rfl, ?_, ?_⟩
  · intro s hs hacc
    have hmem : s ∈ ids.filter (fun s => filt s v) := by
      simp [List.mem_filter, hs, hacc]
    exact List.count_eq_one_of_mem (hnd.filter _) hmem
  · intro s hrej
    have hnot : s ∉ ids.filter (fun s => filt s v) := by
      simp [List.mem_filter, hrej]
    simpa using List.count_eq_zero.mpr hnot

/-- Closed witness for C2: with three distinct subscribers and a filter
accepting odd ids, subscriber 1 receives exactly one call. -/
theorem claim_C2_publish_fanout_witness :
    (publish (regAll [1, 2, 3]) (fun s (_ : Nat) => decide (s % 2 = 1)) 0).count 1 = 1 :=
  (claim_C2_publish_fanout [1, 2, 3] (fun s (_ : Nat) => decide (s % 2 = 1)) 0
    (by decide)).2.1 1 (by decide) (by decide)

/-- Claim C9: when the subscriber occurs exactly once in the table,
`unsubscribe` removes exactly that entry (the table becomes the
registration-order list without it), the count drops by one, and subsequent
publishes never invoke the removed subscriber; when the handle is absent or
matches more than one entry, the call fails with an error (the assertion on
`std::remove`'s result). -/
theorem claim_C9_unsubscribe {D : Type} (subs : List Nat) (s : Nat)
    (filt : Nat → D → Bool) (v : D) :
    (subs.count s = 1 →
      unsubscribe subs s = Except.ok (subs.filter (fun x => !decide (x = s))) ∧
      (subs.filter (fun x => !decide (x = s))).length + 1 = subs.length ∧
      s ∉ subs.filter (fun x => !decide (x = s)) ∧
      (publish (subs.filter (fun x => !decide (x = s))) filt v).count s = 0) ∧
    (subs.count s ≠ 1 → ∃ m, unsubscribe subs s = Except.error m) := by
  have hlen := length_filter_ne subs s
  constructor
  · intro h1
    have hrm : subs.length - (subs.filter (fun x => !decide (x = s))).length = 1 := by
      omega
    have hok : unsubscribe subs s = Except.ok (subs.filter (fun x => !decide (x = s))) := by
      simp [unsubscribe, hrm]
    refine ⟨hok, by omega, ?_, ?_⟩
    · intro hmem
      have := (List.mem_filter.mp hmem).2
      simp at this
    · rw [publish_eq_filter]
      apply List.count_eq_zero.mpr
      intro hmem
      have hmem2 := (List.mem_filter.mp hmem).1
      have := (List.mem_filter.mp hmem2).2
      simp at this
  · intro h1
    have hrm : subs.length - (subs.filter (fun x => !decide (x = s))).length ≠ 1 := by
      omega
    exact ⟨"unsubscribe expected exactly one matching entry", by simp [unsubscribe, hrm]⟩

/-- Closed witness for C9: table `[1,2,3]`, removing 2 succeeds and leaves
`[1,3]`; error cases are covered by the theorem's second conjunct. -/
theorem claim_C9_unsubscribe_witness :
    unsubscribe [1, 2, 3] 2 = Except.ok (List.filter (fun x => !decide (x = 2)) [1, 2, 3]) :=
  ((claim_C9_unsubscribe (D := Nat) [1, 2, 3] 2 (fun _ _ => true) 0).1 (by decide)).1

/-- Claim C10: on a freshly constructed reader (initial state Prefix with
the empty `currentBuffer_`), the very first poll returns true having
consumed zero bytes from the stream — the zero-size initial Prefix state
completes immediately and the reader ends up in the Header state (expecting
the 8 header bytes next), so the wire prefix bytes of the first frame are
never read. -/
theorem claim_C10_first_poll_consumes_nothing (reg : List (Header × Buffer))
    (avail : List Nat) :
    read (freshReader reg) avail =
      (true, ⟨reg, Phase.header, true, 8, 0, none, [], ⟨0, 0⟩, [], [], [], 1⟩, avail) := rfl

/-- Claim C1 fails on the code (code bug): serialise the 4-byte payload
`[1,2,3,4]` of the registered type (typeId 12345) with the writer — all
four components succeed, producing the 17-byte frame — and feed the frame to
a fresh reader.  Because the initial Prefix state consumes nothing, the
4 magic bytes are read as header bytes, the directory lookup fails
(null data buffer reported), and after draining the whole stream no
completion callback has fired, against the claimed exactly-one callback
carrying the value.  The run is quiescent after six polls with the stream
fully consumed. -/
theorem claim_C1_roundtrip_failing_input :
    (writeFrame ⟨[], 1000⟩ 12345 [1, 2, 3, 4]).1 = true ∧
    (writeFrame ⟨[], 1000⟩ 12345 [1, 2, 3, 4]).2.sink =
      magicBytes ++ le32 12345 ++ le32 4 ++ [1, 2, 3, 4] ++ [delimByte] ∧
    (runPolls 6 (freshReader regA) (writeFrame ⟨[], 1000⟩ 12345 [1, 2, 3, 4]).2.sink).2 = [] ∧
    (runPolls 6 (freshReader regA) (writeFrame ⟨[], 1000⟩ 12345 [1, 2, 3, 4]).2.sink).1.pubs = [] ∧
    ErrK.nullData ∈
      (runPolls 6 (freshReader regA) (writeFrame ⟨[], 1000⟩ 12345 [1, 2, 3, 4]).2.sink).1.errs := by
  decide

/-- Claim C4 fails on the code (code bug): a frame whose delimiter byte is
corrupted (7 instead of `'\n'`) drives the reader into `SyncLost` with a
framing-error report and no completion callback — but the very next poll,
instead of reporting the error again and staying in `SyncLost`, silently
falls through the `default:` switch labels into the Prefix logic,
transitions `SyncLost → Header`, returns true, and resumes consuming, with
no new error reported and no external reset. -/
theorem claim_C4_synclost_failing_input :
    (runPolls 2 (freshReader regA) badStream).1.st = Phase.syncLost ∧
    (runPolls 2 (freshReader regA) badStream).1.errs = [ErrK.delimMismatch] ∧
    (runPolls 2 (freshReader regA) badStream).1.pubs = [] ∧
    (runPolls 2 (freshReader regA) badStream).2 = [] ∧
    (read (runPolls 2 (freshReader regA) badStream).1 []).1 = true ∧
    (read (runPolls 2 (freshReader regA) badStream).1 []).2.1.st = Phase.header ∧
    (read (runPolls 2 (freshReader regA) badStream).1 []).2.1.errs = [ErrK.delimMismatch] := by
  decide

/-- Counterexample to claim C5 as stated: on a fresh reader and an empty
stream, `read` returns true even though no bytes were consumed and no frame
was completed (no completion callback fired) — "returns true" does not
coincide with "a complete frame has been consumed". -/
theorem claim_C5_counterexample :
    (read (freshReader []) []).1 = true ∧
    (read (freshReader []) []).2.2 = ([] : List Nat) ∧
    (read (freshReader []) []).2.1.pubs = [] := by
  decide

/-- Counterexample to claim C6 as stated: on a transport that accepts only
4 bytes, `write` reports failure, yet the 4 prefix bytes have already been
written to the wire — a partial frame is left on the stream. -/
theorem claim_C6_counterexample :
    (writeFrame ⟨[], 4⟩ 1 [1, 2, 3, 4]).1 = false ∧
    (writeFrame ⟨[], 4⟩ 1 [1, 2, 3, 4]).2.sink = magicBytes := by
  decide

/-- Counterexample to claim C7 as stated: three in-capacity upserts with
headers `⟨5,4⟩`, `⟨5,8⟩`, `⟨5,4⟩` (same typeId, differing payload sizes)
leave the directory with TWO entries whose Header equals `⟨5,4⟩` — the
ordering used by the insert compares typeId only while entry equality
compares both fields, so the third upsert inserts a duplicate instead of
overwriting. -/
theorem claim_C7_counterexample :
    (seqSet [(⟨5, 4⟩, bufA), (⟨5, 8⟩, bufB), (⟨5, 4⟩, bufC)]).countP
        (fun e => decide (e.1 = (⟨5, 4⟩ : Header))) = 2 ∧
    (seqSet [(⟨5, 4⟩, bufA), (⟨5, 8⟩, bufB), (⟨5, 4⟩, bufC)]).length = 3 := by
  decide

/-- Counterexample to claim C8 as stated: in the reachable directory built
by upserting `⟨5,4⟩` then `⟨5,8⟩`, the entry `(⟨5,4⟩, bufA)` is present,
yet `find ⟨5,4⟩` returns the null descriptor — `lower_bound` by typeId
lands on the `⟨5,8⟩` entry and the both-fields equality test fails. -/
theorem claim_C8_counterexample :
    ((⟨5, 4⟩ : Header), bufA) ∈ seqSet [(⟨5, 4⟩, bufA), (⟨5, 8⟩, bufB)] ∧
    find (seqSet [(⟨5, 4⟩, bufA), (⟨5, 8⟩, bufB)]) ⟨5, 4⟩ = Buffer.null ∧
    bufA ≠ Buffer.null := by
  decide

/-- Claim C7 (amended): after any in-capacity sequence of upserts in which
the payload size is a function of the typeId (`sz`) — the intended usage,
since a message type's wire size is fixed — the directory's typeIds are
strictly increasing (hence sorted by Header with no two entries sharing a
Header), the entry count stays within the call count, and an upsert whose
Header equals an existing entry's Header rewrites exactly that entry's
descriptor in place, adding no entry. -/
theorem claim_C7_directory_upsert (sz : Nat → Nat) (calls : List (Header × Buffer))
    (hsz : ∀ e ∈ calls, e.1.dataBytes = sz e.1.typeId)
    (hcap : calls.length ≤ 64) :
    (seqSet calls).Pairwise (fun a c => a.1.typeId < c.1.typeId) ∧
    (∀ h : Header, (seqSet calls).countP (fun e => decide (e.1 = h)) ≤ 1) ∧
    (∀ (h : Header) (b0 b : Buffer), (h, b0) ∈ seqSet calls →
        set (seqSet calls) h b =
          (seqSet calls).map (fun e => if e.1 = h then (h, b) else e)) ∧
    (seqSet calls).length ≤ 64 := by
  obtain ⟨hps, hszs, hlen⟩ := seqSet_inv sz calls hsz
  exact ⟨hps, fun h => countP_header_le_one _ hps h,
         fun h b0 b hm => set_overwrite _ hps h b0 b hm, Nat.le_trans hlen hcap⟩

/-- Closed witness for C7: re-registering Header `⟨3,6⟩` on the two-entry
directory overwrites its descriptor in place. -/
theorem claim_C7_directory_upsert_witness :
    set (seqSet [(⟨3, 6⟩, bufA), (⟨1, 2⟩, bufB)]) ⟨3, 6⟩ bufC =
      (seqSet [(⟨3, 6⟩, bufA), (⟨1, 2⟩, bufB)]).map
        (fun e => if e.1 = (⟨3, 6⟩ : Header) then ((⟨3, 6⟩ : Header), bufC) else e) :=
  (claim_C7_directory_upsert (fun t => 2 * t) [(⟨3, 6⟩, bufA), (⟨1, 2⟩, bufB)]
    (by decide) (by decide)).2.2.1 ⟨3, 6⟩ bufA bufC (by decide)

/-- Claim C8 (amended): on every directory state reachable by upserts whose
payload sizes are a function of the typeId (`sz`), `find h` returns the
descriptor of the entry whose Header equals `h` when one is present, and
the null-buffer descriptor when none is. -/
theorem claim_C8_find_lookup (sz : Nat → Nat) (calls : List (Header × Buffer))
    (hsz : ∀ e ∈ calls, e.1.dataBytes = sz e.1.typeId) :
    ∀ h : Header,
      (∀ b : Buffer, (h, b) ∈ seqSet calls → find (seqSet calls) h = b) ∧
      ((∀ b : Buffer, (h, b) ∉ seqSet calls) → find (seqSet calls) h = Buffer.null) := by
  obtain ⟨hps, _, _⟩ := seqSet_inv sz calls hsz
  intro h
  constructor
  · intro b hm
    exact find_mem _ hps h b hm
  · intro hnone
    exact find_not_mem _ h hnone

/-- Closed witness for C8: the registered Header `⟨3,6⟩` is found with its
exact descriptor on the two-entry directory. -/
theorem claim_C8_find_lookup_witness :
    find (seqSet [(⟨3, 6⟩, bufA), (⟨1, 2⟩, bufB)]) ⟨3, 6⟩ = bufA :=
  ((claim_C8_find_lookup (fun t => 2 * t) [(⟨3, 6⟩, bufA), (⟨1, 2⟩, bufB)]
    (by decide)) ⟨3, 6⟩).1 bufA (by decide)

/-! ### Helper lemmas (binary writer) -/

/-- Behaviour of the short-circuit component-write chain over the budgeted
transport: the sink always receives exactly the flattened bytes truncated at
the budget, and the chain succeeds iff the whole flattened sequence fits. -/
theorem writeComps_spec (cs : List (List Nat)) : ∀ s : OutS,
    (writeComps s cs).2.sink =
      s.sink ++ cs.flatten.take (min s.budget cs.flatten.length) ∧
    (writeComps s cs).2.budget = s.budget - cs.flatten.length ∧
    ((writeComps s cs).1 = true ↔ cs.flatten.length ≤ s.budget) := by
  induction cs with
  | nil => intro s; simp [writeComps]
  | cons c rest ih =>
      intro s
      simp only [writeComps, List.flatten_cons, List.length_append]
      by_cases hc : (uwrite s c).1 = true
      · rw [if_pos hc]
        have hlen : c.length ≤ s.budget := by
          have hmin : min s.budget c.length = c.length := by
            simpa [uwrite, osWrite] using hc
          omega
        have hs2 : (uwrite s c).2 = ⟨s.sink ++ c, s.budget - c.length⟩ := by
          have hm : min s.budget c.length = c.length := by omega
          simp [uwrite, osWrite, hm]
        rw [hs2]
        obtain ⟨ih1, ih2, ih3⟩ := ih ⟨s.sink ++ c, s.budget - c.length⟩
        dsimp only at ih1 ih2 ih3
        refine ⟨?_, ?_, ?_⟩
        · rw [ih1]
          rw [List.take_append_eq_append_take]
          rw [List.take_of_length_le (l := c)
            (show c.length ≤ min s.budget (c.length + rest.flatten.length) by omega)]
          rw [show min s.budget (c.length + rest.flatten.length) - c.length =
            min (s.budget - c.length) rest.flatten.length by omega]
          rw [List.append_assoc]
        · rw [ih2]; omega
        · rw [ih3]; omega
      · rw [if_neg hc]
        have hlt : s.budget < c.length := by
          by_contra hge
          apply hc
          have hm : min s.budget c.length = c.length := by omega
          simp [uwrite, osWrite, hm]
        have hs2 : (uwrite s c).2 = ⟨s.sink ++ c.take s.budget, 0⟩ := by
          have hm : min s.budget c.length = s.budget := by omega
          simp [uwrite, osWrite, hm]
        refine ⟨?_, ?_, ?_⟩
        · show (uwrite s c).2.sink = _
          rw [hs2]
          rw [List.take_append_eq_append_take]
          rw [show min s.budget (c.length + rest.flatten.length) = s.budget by omega,
              show s.budget - c.length = 0 by omega]
          simp
        · show (uwrite s c).2.budget = _
          rw [hs2]
          simp
          omega
        · simp only [Bool.false_eq_true, false_iff]
          omega

/-- `BinaryWriter::write` is the component chain at the four frame parts. -/
theorem writeFrame_eq_comps (s : OutS) (tid : Nat) (payload : List Nat) :
    writeFrame s tid payload =
      writeComps s [magicBytes, le32 tid ++ le32 payload.length, payload, [delimByte]] := by
  simp only [writeFrame, writeComps]
  by_cases h1 : (uwrite s magicBytes).1 = true
  · simp only [h1, Bool.not_true, Bool.false_eq_true, if_false, if_true]
    by_cases h2 : (uwrite (uwrite s magicBytes).2 (le32 tid ++ le32 payload.length)).1 = true
    · simp only [h2, Bool.not_true, Bool.false_eq_true, if_false, if_true]
      by_cases h3 : (uwrite (uwrite (uwrite s magicBytes).2
          (le32 tid ++ le32 payload.length)).2 payload).1 = true
      · simp only [h3, Bool.not_true, Bool.false_eq_true, if_false, if_true]
        rcases h4 : (uwrite (uwrite (uwrite (uwrite s magicBytes).2
            (le32 tid ++ le32 payload.length)).2 payload).2 [delimByte]) with ⟨ok, s4⟩
        cases ok <;> simp
      · have hx : (uwrite (uwrite (uwrite s magicBytes).2
            (le32 tid ++ le32 payload.length)).2 payload).1 = false := by simpa using h3
        simp [hx]
    · have hx : (uwrite (uwrite s magicBytes).2
          (le32 tid ++ le32 payload.length)).1 = false := by simpa using h2
      simp [hx]
  · have hx : (uwrite s magicBytes).1 = false := by simpa using h1
    simp [hx]

/-! ### Helper lemmas (binary reader) -/

theorem checkStatus_fields (r : Reader) (s : Phase) :
    (checkStatusOfState r s).2.hdrArr = r.hdrArr ∧
    (checkStatusOfState r s).2.st = r.st := by
  unfold checkStatusOfState
  split <;> simp

theorem captureScratch_fields (r : Reader) :
    (captureScratch r).hdrArr = r.hdrArr ∧ (captureScratch r).st = r.st := by
  by_cases h1 : r.st = Phase.header
  · simp [captureScratch, h1]
  · by_cases h2 : r.st = Phase.payload <;> simp [captureScratch, h1, h2]

theorem nextStateF_hdrArr (r : Reader) (s : Phase) :
    (nextStateF r s).2.hdrArr = r.hdrArr := by
  unfold nextStateF
  cases s <;> cases hcp : r.curPub <;> simp

theorem advance_st (r : Reader) : (advance r).2.st = (nextStateF r r.st).1 := by
  unfold advance
  dsimp only
  split <;> rfl

/-- `advance` bumps the Header-arrival counter exactly when it lands on the
Header state, in which case it also reports success (the Header scratch
buffer is always materialised). -/
theorem advance_spec (r : Reader) :
    ((advance r).2.hdrArr =
      if (advance r).2.st = Phase.header then r.hdrArr + 1 else r.hdrArr) ∧
    ((advance r).2.st = Phase.header → (advance r).1 = true) := by
  have hst := advance_st r
  have hn := nextStateF_hdrArr r r.st
  by_cases hh : (nextStateF r r.st).1 = Phase.header
  · have hb : (findStateBuffer (nextStateF r r.st).2 Phase.header).present
        = true := rfl
    constructor
    · rw [hst, hh, if_pos rfl]
      unfold advance
      simp [hh, hb, hn]
    · intro _
      unfold advance
      simp [hh, hb]
  · constructor
    · rw [hst, if_neg hh]
      unfold advance
      dsimp only
      split <;> simp [hh, hn]
    · intro habs
      rw [hst] at habs
      exact absurd habs hh

/-- `stateComplete` bumps the Header-arrival counter exactly when it lands
on the Header state, in which case it also reports success. -/
theorem stateComplete_hdrArr (r : Reader) :
    ((stateComplete r).2.hdrArr =
      if (stateComplete r).2.st = Phase.header then r.hdrArr + 1 else r.hdrArr) ∧
    ((stateComplete r).2.st = Phase.header → (stateComplete r).1 = true) := by
  unfold stateComplete
  have hc1 := (checkStatus_fields r r.st).1
  by_cases hok : (checkStatusOfState r r.st).1 = true
  · have hcap : (captureScratch (checkStatusOfState r r.st).2).hdrArr = r.hdrArr := by
      rw [(captureScratch_fields _).1, hc1]
    have hadv := advance_spec (captureScratch (checkStatusOfState r r.st).2)
    rw [hcap] at hadv
    simpa [hok] using hadv
  · have hokf : (checkStatusOfState r r.st).1 = false := by
      simpa using hok
    simp [hokf, hc1]

/-- One `readBuffer` call bumps the Header-arrival counter exactly when it
both succeeds and lands on the Header state. -/
theorem readStep1_fields (r : Reader) (avail : List Nat) :
    (readStep1 r avail).1.st = r.st ∧ (readStep1 r avail).1.curPad = r.curPad ∧
    (readStep1 r avail).1.hdrArr = r.hdrArr := by
  unfold readStep1
  split <;> simp

theorem readStep2_fields (r : Reader) (avail : List Nat) :
    (readStep2 r avail).1.st = r.st ∧
    (readStep2 r avail).1.hdrArr = r.hdrArr := by
  unfold readStep2
  split <;> simp

theorem readBuffer_hdrArr (r : Reader) (avail : List Nat) :
    (readBuffer r avail).2.1.hdrArr =
      if (readBuffer r avail).1 = true ∧ (readBuffer r avail).2.1.st = Phase.header
      then r.hdrArr + 1 else r.hdrArr := by
  have hf1 := readStep1_fields r avail
  have hf2 := readStep2_fields (readStep1 r avail).1 (readStep1 r avail).2
  simp only [readBuffer]
  split
  · next h1 => simp [hf1.2.2]
  · next h1 =>
      split
      · next h2 => simp [hf2.2, hf1.2.2]
      · next h2 =>
          obtain ⟨hsc, himp⟩ := stateComplete_hdrArr
            (readStep2 (readStep1 r avail).1 (readStep1 r avail).2).1
          rw [hf2.2, hf1.2.2] at hsc
          by_cases hst :
              (stateComplete (readStep2 (readStep1 r avail).1
                (readStep1 r avail).2).1).2.st = Phase.header
          · simp [hst, himp hst, hsc]
          · simp [hst, hsc]

/-- One step of the `while (readBuffer(stream))` loop. -/
theorem readAux_succ (n : Nat) (r : Reader) (avail : List Nat) :
    readAux (n + 1) r avail =
      (if (readBuffer r avail).1 = true then
        (if (readBuffer r avail).2.1.st = Phase.header then
          (true, (readBuffer r avail).2.1, (readBuffer r avail).2.2)
         else readAux n (readBuffer r avail).2.1 (readBuffer r avail).2.2)
       else (false, (readBuffer r avail).2.1, (readBuffer r avail).2.2)) := by
  rcases hp : readBuffer r avail with ⟨ok, r1, rest⟩
  simp only [readAux, hp]
  cases ok <;> simp

/-- The loop returns true exactly when the Header-arrival counter grew. -/
theorem readAux_true_iff (n : Nat) (r : Reader) (avail : List Nat) :
    (readAux n r avail).1 = true ↔ r.hdrArr < (readAux n r avail).2.1.hdrArr := by
  induction n generalizing r avail with
  | zero => simp [readAux]
  | succ n ih =>
      rw [readAux_succ]
      have harr := readBuffer_hdrArr r avail
      cases hok : (readBuffer r avail).1
      · rw [hok] at harr
        simp only [Bool.false_eq_true, false_and, if_false, reduceIte] at harr
        simp [hok, harr]
      · rw [hok] at harr
        by_cases hst : (readBuffer r avail).2.1.st = Phase.header
        · simp only [hst, and_self, if_true, reduceIte] at harr
          simp [hok, hst, harr, Nat.lt_succ_self]
        · simp only [hst, and_false, if_false, reduceIte] at harr
          simp only [hok, hst, if_true, if_false, reduceIte]
          rw [ih, harr]

theorem decode4_le32 (x : Nat) (hx : x < 4294967296) : decode4 (le32 x) = x := by
  simp [decode4, le32]
  omega

theorem decodeHdr_le32 (a b : Nat) (ha : a < 4294967296) (hb : b < 4294967296) :
    decodeHdr (le32 a ++ le32 b) = ⟨a, b⟩ := by
  unfold decodeHdr
  rw [show (le32 a ++ le32 b).take 4 = le32 a by simp [le32],
      show ((le32 a ++ le32 b).drop 4).take 4 = le32 b by simp [le32]]
  rw [decode4_le32 a ha, decode4_le32 b hb]

theorem find_singleton (h : Header) (b : Buffer) : find [(h, b)] h = b := by
  simp [find, List.dropWhile_cons]

theorem regFor_eq (tid n pid : Nat) :
    regFor tid n pid = [(⟨tid, n⟩, ⟨true, n, 0, some pid⟩)] := rfl

theorem find_regFor (tid n pid : Nat) :
    find (regFor tid n pid) ⟨tid, n⟩ = ⟨true, n, 0, some pid⟩ := by
  rw [regFor_eq]
  exact find_singleton _ _

/-- Feeding exactly the current buffer's remaining bytes (padding-free
state) consumes them and completes the state. -/
theorem readBuffer_consume (r : Reader) (bytes rest : List Nat)
    (hpad : r.curPad = 0) (hlen : bytes.length = r.curSize) :
    readBuffer r (bytes ++ rest) =
      ((stateComplete { r with curAcc := r.curAcc ++ bytes, curSize := 0 }).1,
       (stateComplete { r with curAcc := r.curAcc ++ bytes, curSize := 0 }).2,
       rest) := by
  unfold readBuffer readStep1 readStep2
  by_cases h : r.curSize > 0
  · rw [if_pos h]
    dsimp only
    rw [List.take_left' hlen, List.drop_left' hlen, hlen]
    simp [hpad, Nat.sub_self]
  · have h0 : r.curSize = 0 := by omega
    have hb : bytes = [] := List.length_eq_zero.mp (by omega)
    subst hb
    rw [if_neg h]
    obtain ⟨rg, st, cp, cs, cd, cpub, acc, hd2, ps, pbs, ers, haa⟩ := r
    simp_all

/-- Feeding fewer bytes than the current buffer needs stores them and
reports "need more data", leaving the stream drained. -/
theorem readBuffer_needMore (r : Reader) (bytes : List Nat)
    (_hpad : r.curPad = 0) (hlt : bytes.length < r.curSize) :
    readBuffer r bytes =
      (false, { r with curAcc := r.curAcc ++ bytes,
                       curSize := r.curSize - bytes.length }, []) := by
  unfold readBuffer readStep1
  rw [if_pos (show r.curSize > 0 by omega)]
  dsimp only
  rw [List.take_of_length_le (by omega), List.drop_eq_nil_of_le (by omega)]
  rw [if_pos (show r.curSize - bytes.length > 0 by omega)]

theorem readAux_step_true (n : Nat) (r r1 : Reader) (avail rest : List Nat)
    (h : readBuffer r avail = (true, r1, rest)) (hst : ¬ r1.st = Phase.header) :
    readAux (n + 1) r avail = readAux n r1 rest := by
  simp only [readAux, h]
  rw [if_neg hst]

theorem readAux_step_exit (n : Nat) (r r1 : Reader) (avail rest : List Nat)
    (h : readBuffer r avail = (true, r1, rest)) (hst : r1.st = Phase.header) :
    readAux (n + 1) r avail = (true, r1, rest) := by
  simp only [readAux, h]
  rw [if_pos hst]

theorem readAux_step_false (n : Nat) (r r1 : Reader) (avail rest : List Nat)
    (h : readBuffer r avail = (false, r1, rest)) :
    readAux (n + 1) r avail = (false, r1, rest) := by
  simp only [readAux, h]

theorem runPolls_two (r : Reader) (avail : List Nat) :
    runPolls 2 r avail =
      ((read (read r avail).2.1 (read r avail).2.2).2.1,
       (read (read r avail).2.1 (read r avail).2.2).2.2) := by
  simp [runPolls]

/-- The first poll of a fresh reader: the empty initial Prefix buffer
completes immediately, landing on the Header state without consuming. -/
theorem read_fresh (reg : List (Header × Buffer)) (avail : List Nat) :
    read (freshReader reg) avail =
      (true, ⟨reg, Phase.header, true, 8, 0, none, [], ⟨0, 0⟩, [], [], [], 1⟩,
       avail) := rfl

/-- Consuming the 8 header bytes from the Header state of a reader whose
directory resolves the decoded header to a registered landing buffer. -/
theorem step_header (reg : List (Header × Buffer)) (tid n pid : Nat)
    (htid : tid < 4294967296) (hn : n < 4294967296)
    (hfind : find reg ⟨tid, n⟩ = ⟨true, n, 0, some pid⟩)
    (rest : List Nat) (hd0 : Header) (ps0 : List Nat)
    (pubs0 : List (Nat × List Nat)) (errs0 : List ErrK) (ha : Nat) :
    readBuffer ⟨reg, Phase.header, true, 8, 0, none, [], hd0, ps0, pubs0, errs0, ha⟩
      (le32 tid ++ le32 n ++ rest) =
      (true, ⟨reg, Phase.payload, true, n, 0, some pid, [], ⟨tid, n⟩, ps0,
        pubs0, errs0, ha⟩, rest) := by
  rw [readBuffer_consume _ (le32 tid ++ le32 n) rest rfl (by simp [le32])]
  simp [stateComplete, checkStatusOfState, getStateStatus, captureScratch,
    advance, nextStateF, findStateBuffer, decodeHdr_le32 tid n htid hn, hfind]

/-- Consuming the payload bytes from the Data state: the landed bytes are
captured and the state moves to the delimiter, carrying the publisher. -/
theorem step_payload (reg : List (Header × Buffer)) (n pid : Nat)
    (payload rest : List Nat) (hlen : payload.length = n)
    (hd0 : Header) (ps0 : List Nat)
    (pubs0 : List (Nat × List Nat)) (errs0 : List ErrK) (ha : Nat) :
    readBuffer ⟨reg, Phase.payload, true, n, 0, some pid, [], hd0, ps0, pubs0, errs0, ha⟩
      (payload ++ rest) =
      (true, ⟨reg, Phase.delim, true, 1, 0, some pid, [], hd0, payload,
        pubs0, errs0, ha⟩, rest) := by
  rw [readBuffer_consume _ payload rest rfl (by simpa using hlen)]
  simp [stateComplete, checkStatusOfState, getStateStatus, captureScratch,
    advance, nextStateF, findStateBuffer]

/-- Consuming a valid delimiter byte: the frame is complete, the completion
callback fires exactly here with the captured payload, and the reader loops
to the Prefix state of the next frame. -/
theorem step_delim_good (reg : List (Header × Buffer)) (pid : Nat)
    (rest : List Nat) (hd0 : Header) (ps0 : List Nat)
    (pubs0 : List (Nat × List Nat)) (errs0 : List ErrK) (ha : Nat) :
    readBuffer ⟨reg, Phase.delim, true, 1, 0, some pid, [], hd0, ps0, pubs0, errs0, ha⟩
      (delimByte :: rest) =
      (true, ⟨reg, Phase.magic, true, 4, 0, none, [], hd0, ps0,
        pubs0 ++ [(pid, ps0)], errs0, ha⟩, rest) := by
  rw [show delimByte :: rest = [delimByte] ++ rest from rfl]
  rw [readBuffer_consume _ [delimByte] rest rfl rfl]
  simp [stateComplete, checkStatusOfState, getStateStatus, captureScratch,
    advance, nextStateF, findStateBuffer]

/-- Consuming a corrupted delimiter byte: the framing error is reported, no
completion callback fires, and the reader enters `SyncLost`. -/
theorem step_delim_bad (reg : List (Header × Buffer)) (pid : Nat) (d : Nat)
    (hd : ¬ d = delimByte) (rest : List Nat) (hd0 : Header) (ps0 : List Nat)
    (pubs0 : List (Nat × List Nat)) (errs0 : List ErrK) (ha : Nat) :
    readBuffer ⟨reg, Phase.delim, true, 1, 0, some pid, [], hd0, ps0, pubs0, errs0, ha⟩
      (d :: rest) =
      (false, ⟨reg, Phase.syncLost, true, 0, 0, some pid, [d], hd0, ps0,
        pubs0, errs0 ++ [ErrK.delimMismatch], ha⟩, rest) := by
  rw [show d :: rest = [d] ++ rest from rfl]
  rw [readBuffer_consume _ [d] rest rfl rfl]
  simp [stateComplete, checkStatusOfState, getStateStatus, hd]

/-- One poll that feeds fewer bytes than the current buffer needs: the
bytes are stored, the stream is drained, and the call reports false. -/
theorem read_needMore (r : Reader) (bytes : List Nat)
    (hpad : r.curPad = 0) (hlt : bytes.length < r.curSize) :
    read r bytes =
      (false, { r with curAcc := r.curAcc ++ bytes,
                       curSize := r.curSize - bytes.length }, []) := by
  unfold read
  show readAux (7 + 1) _ _ = _
  rw [readAux_step_false 7 _ _ _ _ (readBuffer_needMore r bytes hpad hlt)]

/-- Claim C3: for every frame the reader processes (header of a registered
type, its payload, the trailing delimiter), the completion notifier fires
exactly once, carrying the byte-equal payload, and only fires after every
byte of the frame including the trailing delimiter has been read and
validated: every strict prefix of the frame produces no completion, and a
frame whose delimiter byte is corrupted produces a framing-error report,
`SyncLost`, and no completion. -/
theorem claim_C3_completion_once_after_frame (tid n pid bbyte : Nat)
    (payload : List Nat) (htid : tid < 4294967296) (hn : n < 4294967296)
    (hlen : payload.length = n) (hbad : ¬ bbyte = delimByte) :
    ((runPolls 2 (freshReader (regFor tid n pid))
        (le32 tid ++ le32 n ++ payload ++ [delimByte])).1.pubs = [(pid, payload)] ∧
     (runPolls 2 (freshReader (regFor tid n pid))
        (le32 tid ++ le32 n ++ payload ++ [delimByte])).2 = []) ∧
    (∀ k, k < (le32 tid ++ le32 n ++ payload ++ [delimByte]).length →
      (runPolls 2 (freshReader (regFor tid n pid))
        ((le32 tid ++ le32 n ++ payload ++ [delimByte]).take k)).1.pubs = []) ∧
    ((runPolls 2 (freshReader (regFor tid n pid))
        (le32 tid ++ le32 n ++ payload ++ [bbyte])).1.pubs = [] ∧
     ErrK.delimMismatch ∈ (runPolls 2 (freshReader (regFor tid n pid))
        (le32 tid ++ le32 n ++ payload ++ [bbyte])).1.errs ∧
     (runPolls 2 (freshReader (regFor tid n pid))
        (le32 tid ++ le32 n ++ payload ++ [bbyte])).1.st = Phase.syncLost) := by
  have hfind := find_regFor tid n pid
  refine ⟨?_, ?_, ?_⟩
  · -- (1) the whole frame: one completion with the captured payload
    rw [runPolls_two, read_fresh]
    dsimp only
    rw [List.append_assoc]
    have hrd : read ⟨regFor tid n pid, Phase.header, true, 8, 0, none, [],
        ⟨0, 0⟩, [], [], [], 1⟩ (le32 tid ++ le32 n ++ (payload ++ [delimByte])) =
        (false, ⟨regFor tid n pid, Phase.magic, true, 4, 0, none, [], ⟨tid, n⟩,
          payload, [(pid, payload)], [], 1⟩, []) := by
      unfold read
      show readAux (7 + 1) _ _ = _
      rw [readAux_step_true 7 _ _ _ _
        (step_header _ tid n pid htid hn hfind (payload ++ [delimByte])
          ⟨0, 0⟩ [] [] [] 1) (by simp)]
      show readAux (6 + 1) _ _ = _
      rw [readAux_step_true 6 _ _ _ _
        (step_payload _ n pid payload [delimByte] hlen ⟨tid, n⟩ [] [] [] 1)
        (by simp)]
      show readAux (5 + 1) _ _ = _
      rw [readAux_step_true 5 _ _ _ _
        (step_delim_good _ pid [] ⟨tid, n⟩ payload [] [] 1) (by simp)]
      show readAux (4 + 1) _ _ = _
      rw [readAux_step_false 4 _ _ _ _ (readBuffer_needMore _ [] rfl (by simp))]
      simp
    rw [hrd]
    exact ⟨rfl, rfl⟩
  · -- (2) strict prefixes of the frame: no completion
    intro k hk
    have hk9 : k ≤ 8 + n := by
      simp [le32, hlen] at hk
      omega
    have htk : (le32 tid ++ le32 n ++ payload ++ [delimByte]).take k
        = (le32 tid ++ le32 n ++ payload).take k := by
      rw [List.take_append_of_le_length (by simp [le32, hlen] <;> omega)]
    rw [runPolls_two, read_fresh]
    dsimp only
    rw [htk]
    rcases Nat.lt_or_ge k 8 with hk8 | hk8
    · -- header incomplete
      rw [read_needMore _ _ rfl (by simp [le32, hlen] <;> omega)]
    · have htk2 : (le32 tid ++ le32 n ++ payload).take k
          = (le32 tid ++ le32 n) ++ payload.take (k - 8) := by
        rw [List.take_append_eq_append_take,
            List.take_of_length_le (by simp [le32] <;> omega)]
        have hl8 : (le32 tid ++ le32 n).length = 8 := by simp [le32]
        rw [hl8]
      rw [htk2]
      rcases Nat.lt_or_ge (k - 8) n with hkn | hkn
      · -- payload incomplete
        have hrd : read ⟨regFor tid n pid, Phase.header, true, 8, 0, none, [],
            ⟨0, 0⟩, [], [], [], 1⟩ (le32 tid ++ le32 n ++ payload.take (k - 8)) =
            (false, ⟨regFor tid n pid, Phase.payload, true,
              n - (payload.take (k - 8)).length, 0, some pid,
              [] ++ payload.take (k - 8), ⟨tid, n⟩, [], [], [], 1⟩, []) := by
          unfold read
          show readAux (7 + 1) _ _ = _
          rw [readAux_step_true 7 _ _ _ _
            (step_header _ tid n pid htid hn hfind (payload.take (k - 8))
              ⟨0, 0⟩ [] [] [] 1) (by simp)]
          show readAux (6 + 1) _ _ = _
          rw [readAux_step_false 6 _ _ _ _
            (readBuffer_needMore _ _ rfl (by simp [List.length_take] <;> omega))]
        rw [hrd]
      · -- delimiter missing: payload complete, delimiter buffer empty
        have hkeq : payload.take (k - 8) = payload :=
          List.take_of_length_le (by omega)
        rw [hkeq]
        have hrd : read ⟨regFor tid n pid, Phase.header, true, 8, 0, none, [],
            ⟨0, 0⟩, [], [], [], 1⟩ (le32 tid ++ le32 n ++ payload) =
            (false, ⟨regFor tid n pid, Phase.delim, true, 1, 0, some pid,
              [], ⟨tid, n⟩, payload, [], [], 1⟩, []) := by
          unfold read
          show readAux (7 + 1) _ _ = _
          rw [readAux_step_true 7 _ _ _ _
            (step_header _ tid n pid htid hn hfind payload ⟨0, 0⟩ [] [] [] 1)
            (by simp)]
          have hpay : readBuffer ⟨regFor tid n pid, Phase.payload, true, n, 0,
              some pid, [], ⟨tid, n⟩, [], [], [], 1⟩ payload =
              (true, ⟨regFor tid n pid, Phase.delim, true, 1, 0, some pid, [],
                ⟨tid, n⟩, payload, [], [], 1⟩, []) := by
            have := step_payload (regFor tid n pid) n pid payload [] hlen
              ⟨tid, n⟩ [] [] [] 1
            rwa [List.append_nil] at this
          show readAux (6 + 1) _ _ = _
          rw [readAux_step_true 6 _ _ _ _ hpay (by simp)]
          show readAux (5 + 1) _ _ = _
          rw [readAux_step_false 5 _ _ _ _ (readBuffer_needMore _ [] rfl (by simp))]
          simp
        rw [hrd]
  · -- (3) corrupted delimiter: error report, SyncLost, no completion
    rw [runPolls_two, read_fresh]
    dsimp only
    rw [List.append_assoc]
    have hrd : read ⟨regFor tid n pid, Phase.header, true, 8, 0, none, [],
        ⟨0, 0⟩, [], [], [], 1⟩ (le32 tid ++ le32 n ++ (payload ++ [bbyte])) =
        (false, ⟨regFor tid n pid, Phase.syncLost, true, 0, 0, some pid,
          [bbyte], ⟨tid, n⟩, payload, [], [ErrK.delimMismatch], 1⟩, []) := by
      unfold read
      show readAux (7 + 1) _ _ = _
      rw [readAux_step_true 7 _ _ _ _
        (step_header _ tid n pid htid hn hfind (payload ++ [bbyte])
          ⟨0, 0⟩ [] [] [] 1) (by simp)]
      show readAux (6 + 1) _ _ = _
      rw [readAux_step_true 6 _ _ _ _
        (step_payload _ n pid payload [bbyte] hlen ⟨tid, n⟩ [] [] [] 1)
        (by simp)]
      show readAux (5 + 1) _ _ = _
      rw [readAux_step_false 5 _ _ _ _
        (step_delim_bad _ pid bbyte hbad [] ⟨tid, n⟩ payload [] [] 1)]
      simp
    rw [hrd]
    refine ⟨rfl, by simp, rfl⟩

/-- Closed witness for C3 at typeId 12345, a 4-byte payload, publisher 0,
and corrupted delimiter byte 7. -/
theorem claim_C3_completion_once_after_frame_witness :
    (runPolls 2 (freshReader (regFor 12345 4 0))
      (le32 12345 ++ le32 4 ++ [1, 2, 3, 4] ++ [delimByte])).1.pubs
      = [(0, [1, 2, 3, 4])] :=
  (claim_C3_completion_once_after_frame 12345 4 0 7 [1, 2, 3, 4]
    (by decide) (by decide) (by decide) (by decide)).1.1

/-- Claim C5 (amended): one `read` (poll) call returns true exactly when it
advances into a fresh `Header` state — a new frame boundary — during the
call (the Header-arrival count grows).  This does not always coincide with
"a complete frame has been consumed": the first poll of a fresh reader and
the poll after `SyncLost` reach Header without consuming a frame
(counterexample above).  `read` returns false when more input bytes are
required or when validation failed. -/
theorem claim_C5_poll_true_iff_header_arrival (r : Reader) (avail : List Nat) :
    (read r avail).1 = true ↔ r.hdrArr < (read r avail).2.1.hdrArr :=
  readAux_true_iff 8 r avail

/-- Claim C6 (amended): the writer attempts the four component writes in
order with short-circuit abort: the call reports success exactly when the
whole frame (prefix, header, payload, postfix) fits the transport, in which
case all four components are on the wire in order; on failure no component
after the first failing write is attempted, but the bytes accepted before
the failure remain on the wire — the sink always holds exactly a prefix of
the frame (full on success, proper on failure), never reordered or
interleaved bytes. -/
theorem claim_C6_write_frame_prefix (s : OutS) (tid : Nat) (payload : List Nat) :
    (writeFrame s tid payload).2.sink =
      s.sink ++ (magicBytes ++ le32 tid ++ le32 payload.length ++ payload ++
        [delimByte]).take (min s.budget (magicBytes ++ le32 tid ++
          le32 payload.length ++ payload ++ [delimByte]).length) ∧
    ((writeFrame s tid payload).1 = true ↔
      (magicBytes ++ le32 tid ++ le32 payload.length ++ payload ++
        [delimByte]).length ≤ s.budget) := by
  have hspec := writeComps_spec
    [magicBytes, le32 tid ++ le32 payload.length, payload, [delimByte]] s
  rw [writeFrame_eq_comps]
  have hfl : ([magicBytes, le32 tid ++ le32 payload.length, payload,
      [delimByte]] : List (List Nat)).flatten =
      magicBytes ++ le32 tid ++ le32 payload.length ++ payload ++ [delimByte] := by
    simp [List.append_assoc]
  rw [hfl] at hspec
  exact ⟨hspec.1, hspec.2.2⟩

end Sub0
